import Mathlib

/-!
Verification development for `src/uptest.py`, a resumable chunked-upload
client.  The Python program is shallowly embedded: the implicit file cursor
becomes explicit state, exceptions become `Option`/`Except` results, and the
HTTP layer is modelled by an oracle (`Server`) answering each request, while
every request actually issued is recorded in a trace.
-/

namespace Uptest

/-- Chunk size constant from the source: 4 MiB. -/
def CHUNKSIZE : Nat := 2 ^ 22

/-- Path of the authentication endpoint (`AUTHURL`). -/
def AUTHURL : String := "api/rest/token/"

/-- Path of the upload collection endpoint (`UPLOADURL`). -/
def UPLOADURL : String := "api/rest/aois/"

/-- A Python binary file object: its content and its current position.
Seeking past the end is allowed; reads clamp at end of file. -/
structure PyFile where
  content : List Nat
  pos : Nat
deriving DecidableEq

/-- Python `file.read(n)` for an `int` argument: a negative argument reads to
end of file; a nonnegative one returns at most `n` bytes from the current
position; the position advances by the number of bytes returned. -/
def pyRead (f : PyFile) (n : Int) : List Nat × PyFile :=
  if n < 0 then
    let d := f.content.drop f.pos
    (d, { f with pos := f.pos + d.length })
  else
    let d := (f.content.drop f.pos).take n.toNat
    (d, { f with pos := f.pos + d.length })

/-- `FileWrapper` from the source: a file together with a block size, a
`start` bias and an optional `end` bound.  `end` is a Lean keyword, so that
field is named `endB`. -/
structure FileWrapper where
  file : PyFile
  blocksize : Nat
  start : Nat
  endB : Option Nat
deriving DecidableEq

/-- `FileWrapper.__init__`: stores the parameters and seeks the underlying
file to `start`. -/
def FileWrapper.init (filelike : PyFile) (blksize : Nat) (start : Nat)
    (endB : Option Nat) : FileWrapper :=
  { file := { filelike with pos := start }, blocksize := blksize,
    start := start, endB := endB }

/-- `FileWrapper.seek`: adds the `start` bias and repositions the file. -/
def FileWrapper.seek (fw : FileWrapper) (position : Nat) : FileWrapper :=
  { fw with file := { fw.file with pos := position + fw.start } }

/-- Python truthiness of the optional `key` argument of `_read`
(`None` and `0` are both falsy). -/
def natKeyTruthy : Option Nat → Bool
  | none => false
  | some k => k != 0

/-- `FileWrapper._read`: optionally seeks to `blocksize * key`, clamps the
read size when an `end` bound is set (note: Python evaluates
`self.end and ...`, so an `end` of `0` is falsy and disables clamping, and a
cursor past `end` yields a negative size, which Python's `read` treats as
read-to-EOF), reads, optionally restores the position, and returns the data
read, or `none` for the `IndexError` raised on an empty read. -/
def FileWrapper.readAux (fw : FileWrapper) (key : Option Nat) :
    Option (List Nat) × FileWrapper :=
  let current_position := fw.file.pos
  let fw1 := if natKeyTruthy key then fw.seek (fw.blocksize * key.getD 0) else fw
  let bs : Int :=
    match fw.endB with
    | some e =>
        if e ≠ 0 ∧ fw1.file.pos + fw.blocksize > e then
          (e : Int) - (fw1.file.pos : Int)
        else (fw.blocksize : Int)
    | none => (fw.blocksize : Int)
  let rd := pyRead fw1.file bs
  let fw2 : FileWrapper := { fw1 with file := rd.2 }
  let fw3 := if natKeyTruthy key then fw2.seek current_position else fw2
  if rd.1 = [] then (none, fw3) else (some rd.1, fw3)

/-- `FileWrapper.next`: one iteration step of the chunk source; `none`
models `StopIteration`. -/
def FileWrapper.next (fw : FileWrapper) : Option (List Nat) × FileWrapper :=
  fw.readAux none

/-- Iterating the chunk source to exhaustion, as the upload loop does via
the iterator protocol; `fuel` bounds the number of steps. -/
def iterChunks : Nat → FileWrapper → List (List Nat)
  | 0, _ => []
  | fuel + 1, fw =>
    match FileWrapper.next fw with
    | (none, _) => []
    | (some d, fw1) => d :: iterChunks fuel fw1

/-- The chunk sequence of a whole file of content `L`, read with chunk size
`C` from offset 0 with no end bound (the configuration built by
`UploadTester.__init__`). -/
def chunksOf (L : List Nat) (C : Nat) : List (List Nat) :=
  iterChunks (L.length + 1) (FileWrapper.init ⟨L, 0⟩ C 0 none)

/-- Evaluation of one `next` step of a wrapper with no end bound: the data
is the next `blocksize` bytes at the cursor, and the cursor advances by the
number of bytes read. -/
lemma FileWrapper.next_noEnd (L : List Nat) (p C s : Nat) :
    FileWrapper.next ⟨⟨L, p⟩, C, s, none⟩ =
      ((if (L.drop p).take C = [] then none else some ((L.drop p).take C)),
        ⟨⟨L, p + ((L.drop p).take C).length⟩, C, s, none⟩) := by
  have hnn : ¬ ((C : Int) < 0) := by exact_mod_cast Int.not_lt.mpr (Int.natCast_nonneg C)
  simp only [FileWrapper.next, FileWrapper.readAux, natKeyTruthy, pyRead,
    Bool.false_eq_true, if_neg, if_false, hnn, Int.toNat_natCast]
  split <;> rfl
/-- Step equation for `iterChunks` when `next` yields a chunk. -/
lemma iterChunks_cons (fuel : Nat) (fw : FileWrapper) (d : List Nat) (fw1 : FileWrapper)
    (h : FileWrapper.next fw = (some d, fw1)) :
    iterChunks (fuel + 1) fw = d :: iterChunks fuel fw1 := by
  conv_lhs => rw [iterChunks]
  rw [h]

/-- Step equation for `iterChunks` when `next` signals `StopIteration`. -/
lemma iterChunks_nil (fuel : Nat) (fw : FileWrapper) (fw1 : FileWrapper)
    (h : FileWrapper.next fw = (none, fw1)) :
    iterChunks (fuel + 1) fw = [] := by
  conv_lhs => rw [iterChunks]
  rw [h]

/-- Main induction for the chunk partition property: from any cursor `p`,
with positive chunk size and enough fuel, the chunks read concatenate to the
file suffix, every chunk is nonempty of size at most `C`, all but the last
have size exactly `C`, and the last chunk has size `(rest mod C)`, or `C`
when that remainder is `0`. -/
lemma iterChunks_spec (L : List Nat) (C : Nat) (hC : 0 < C) :
    ∀ fuel p, L.length - p < fuel →
      (iterChunks fuel ⟨⟨L, p⟩, C, 0, none⟩).flatten = L.drop p ∧
      (∀ c ∈ iterChunks fuel ⟨⟨L, p⟩, C, 0, none⟩, 0 < c.length ∧ c.length ≤ C) ∧
      (∀ c ∈ (iterChunks fuel ⟨⟨L, p⟩, C, 0, none⟩).dropLast, c.length = C) ∧
      (iterChunks fuel ⟨⟨L, p⟩, C, 0, none⟩ = [] ↔ L.length ≤ p) ∧
      (p < L.length →
        (iterChunks fuel ⟨⟨L, p⟩, C, 0, none⟩).getLast?.map List.length =
          some (if (L.length - p) % C = 0 then C else (L.length - p) % C)) := by
  intro fuel
  induction fuel with
  | zero => intro p h; omega
  | succ fuel ih =>
    intro p hfuel
    have hdl : ((L.drop p).take C).length = min C (L.length - p) := by
      rw [List.length_take, List.length_drop]
    by_cases hempty : (L.drop p).take C = []
    · have hple : L.length ≤ p := by
        have h0 := congrArg List.length hempty
        rw [hdl] at h0
        simp only [List.length_nil] at h0
        omega
      have hnext : FileWrapper.next ⟨⟨L, p⟩, C, 0, none⟩ =
          (none, ⟨⟨L, p + ((L.drop p).take C).length⟩, C, 0, none⟩) := by
        rw [FileWrapper.next_noEnd, if_pos hempty]
      rw [iterChunks_nil fuel _ _ hnext]
      refine ⟨by rw [List.drop_eq_nil_of_le hple]; rfl, by simp, by simp,
        by simp [hple], fun hlt => by omega⟩
    · have hdpos : 0 < ((L.drop p).take C).length := List.length_pos.mpr hempty
      have hplt : p < L.length := by rw [hdl] at hdpos; omega
      have hnext : FileWrapper.next ⟨⟨L, p⟩, C, 0, none⟩ =
          (some ((L.drop p).take C), ⟨⟨L, p + ((L.drop p).take C).length⟩, C, 0, none⟩) := by
        rw [FileWrapper.next_noEnd, if_neg hempty]
      rw [iterChunks_cons fuel _ _ _ hnext]
      obtain ⟨ihjoin, ihsize, ihdrop, ihnil, ihlast⟩ :=
        ih (p + ((L.drop p).take C).length) (by omega)
      have hjoin : (L.drop p).take C ++ L.drop (p + ((L.drop p).take C).length) = L.drop p := by
        have h1 : L.drop (p + ((L.drop p).take C).length) =
            (L.drop p).drop ((L.drop p).take C).length := by
          rw [List.drop_drop, Nat.add_comm]
        have h2 : (L.drop p).drop ((L.drop p).take C).length = (L.drop p).drop C := by
          rcases Nat.le_total C (L.length - p) with hle | hle
          · have hcc : ((L.drop p).take C).length = C := by rw [hdl]; omega
            rw [hcc]
          · have ha : (L.drop p).length ≤ ((L.drop p).take C).length := by
              rw [hdl, List.length_drop]; omega
            have hb : (L.drop p).length ≤ C := by rw [List.length_drop]; omega
            rw [List.drop_eq_nil_of_le ha, List.drop_eq_nil_of_le hb]
        rw [h1, h2, List.take_append_drop]
      refine ⟨?_, ?_, ?_, ?_, ?_⟩
      · simp only [List.flatten_cons, ihjoin]
        exact hjoin
      · intro c hc
        rcases List.mem_cons.mp hc with rfl | hc
        · exact ⟨hdpos, by rw [hdl]; omega⟩
        · exact ihsize c hc
      · intro c hc
        by_cases hnil : iterChunks fuel ⟨⟨L, p + ((L.drop p).take C).length⟩, C, 0, none⟩ = []
        · rw [hnil] at hc
          simp at hc
        · have hp1lt : p + ((L.drop p).take C).length < L.length := by
            rcases Nat.lt_or_ge (p + ((L.drop p).take C).length) L.length with h | h
            · exact h
            · exact absurd (ihnil.mpr h) hnil
          have hfull : ((L.drop p).take C).length = C := by rw [hdl] at hp1lt ⊢; omega
          rw [List.dropLast_cons_of_ne_nil hnil] at hc
          rcases List.mem_cons.mp hc with rfl | hc
          · exact hfull
          · exact ihdrop c hc
      · refine ⟨fun h => absurd h (by simp), fun h => absurd hplt (Nat.not_lt.mpr h)⟩
      · intro _
        by_cases hnil : iterChunks fuel ⟨⟨L, p + ((L.drop p).take C).length⟩, C, 0, none⟩ = []
        · have hge : L.length ≤ p + ((L.drop p).take C).length := ihnil.mp hnil
          have hlast : ((L.drop p).take C).length = L.length - p := by
            rw [hdl] at hge ⊢; omega
          have hrem : L.length - p ≤ C := by rw [hdl] at hlast; omega
          rw [hnil, List.getLast?_singleton, Option.map_some']
          by_cases hmod : (L.length - p) % C = 0
          · have heq : L.length - p = C := by
              rcases Nat.lt_or_ge (L.length - p) C with h | h
              · rw [Nat.mod_eq_of_lt h] at hmod; omega
              · omega
            rw [if_pos hmod, hlast, heq]
          · have hlt : L.length - p < C := by
              rcases Nat.lt_or_ge (L.length - p) C with h | h
              · exact h
              · have heq : L.length - p = C := by omega
                rw [heq, Nat.mod_self] at hmod
                omega
            rw [if_neg hmod, hlast, Nat.mod_eq_of_lt hlt]
        · have hp1lt : p + ((L.drop p).take C).length < L.length := by
            rcases Nat.lt_or_ge (p + ((L.drop p).take C).length) L.length with h | h
            · exact h
            · exact absurd (ihnil.mpr h) hnil
          have hfull : ((L.drop p).take C).length = C := by rw [hdl] at hp1lt ⊢; omega
          obtain ⟨x, xs, hxs⟩ := List.exists_cons_of_ne_nil hnil
          rw [hxs, List.getLast?_cons_cons, ← hxs, ihlast hp1lt]
          have harith : (L.length - (p + ((L.drop p).take C).length)) % C =
              (L.length - p) % C := by
            rw [hfull]
            have heq : L.length - p = (L.length - (p + C)) + C := by omega
            rw [heq, Nat.add_mod_right]
          rw [harith]

/-- Decidable equality for `Except`, needed to evaluate runs on concrete
inputs. -/
instance {ε α : Type} [DecidableEq ε] [DecidableEq α] : DecidableEq (Except ε α) := fun a b =>
  match a, b with
  | .error e, .error f =>
      if h : e = f then isTrue (h ▸ rfl)
      else isFalse (fun hc => h (Except.error.inj hc))
  | .ok x, .ok y =>
      if h : x = y then isTrue (h ▸ rfl)
      else isFalse (fun hc => h (Except.ok.inj hc))
  | .error _, .ok _ => isFalse (fun hc => Except.noConfusion hc)
  | .ok _, .error _ => isFalse (fun hc => Except.noConfusion hc)

/-- The relevant fields of a server response: the HTTP status code and the
body fields the client may look at (`url` and `token`), plus the `offset`
field the protocol documents for chunk responses. -/
structure Response where
  status : Nat
  url : Option String
  offset : Option Nat
  token : Option String
deriving DecidableEq

/-- The server oracle: the response to the authentication POST, to the k-th
chunk PUT, to the finalize POST and to the single-shot POST. -/
structure Server where
  authResp : Response
  chunkResp : Nat → Response
  completeResp : Response
  uploadResp : Response

/-- The form fields sent with a chunk PUT (`UploadTester.params`). -/
structure Params where
  filename : String
  comment : String
  parent_object_id : Option String
deriving DecidableEq

/-- The form fields sent with a finalize or single-shot POST: the upload
parameters plus the `md5` checksum. -/
structure CParams where
  filename : String
  comment : String
  parent_object_id : Option String
  md5 : String
deriving DecidableEq

/-- One HTTP request issued by the client, as recorded in the run trace. -/
inductive Request where
  | auth (url : String) (username password : Option String)
  | putChunk (url : String) (header : List (String × String)) (ps : Params)
      (payload : List Nat)
  | postComplete (url : String) (header : List (String × String)) (cp : CParams)
  | postUpload (url : String) (header : List (String × String)) (cp : CParams)
      (payload : List Nat)
deriving DecidableEq

/-- Errors the client can raise: `ValueError` for a token-less
authentication response, `HTTPError` from `raise_for_status`, and the
`KeyError` escaping `put_chunk` when a 200 response body has no `url`. -/
inductive UploadError where
  | valueError (msg : String)
  | httpError (status : Nat)
  | keyError
deriving DecidableEq

/-- Outcome of `put_chunk`: either a response, or the `StopIteration`
raised by the exhausted chunk iterator. -/
inductive ChunkOutcome where
  | stop
  | resp (r : Response)
deriving DecidableEq

/-- `requests.Response.raise_for_status`: raises for a 4xx or 5xx status. -/
def raise_for_status (r : Response) : Except UploadError Unit :=
  if 400 ≤ r.status ∧ r.status < 600 then .error (.httpError r.status) else .ok ()

/-- Python truthiness of the cached resource url: `None` and the empty
string are falsy. -/
def optStrFalsy : Option String → Bool
  | none => true
  | some s => s == ""

/-- Python dict assignment `d[k] = v`: replaces the value of an existing
key in place, or appends the binding. -/
def dictSet : List (String × String) → String → String → List (String × String)
  | [], k, v => [(k, v)]
  | (a, b) :: rest, k, v =>
      if a = k then (k, v) :: rest else (a, b) :: dictSet rest k v

/-- The state of an `UploadTester` instance.  The underlying private caches
`_token`, `_url` and `_header` are the fields `tokenC`, `urlC` and
`headerC`. -/
structure Tester where
  username : Option String
  password : Option String
  login : Bool
  filename : String
  comment : String
  parent_aoi : Option String
  https : Bool
  host : String
  port : Option Nat
  md5 : String
  file_length : Nat
  file : FileWrapper
  base_url : String
  tokenC : Option String
  urlC : Option String
  headerC : Option (List (String × String))
deriving DecidableEq

/-- `UploadTester.__init__`.  The file on disk is modelled by its `content`
and its base name; the md5 digest (computed by `generate_file_md5` via the
foreign `hashlib`) is passed in as `md5`.  Note that the source assigns
`self.parent_aoi = None`, discarding the `parent_aoi` argument. -/
def Tester.init (ebagis_host : String) (content : List Nat) (basename : String)
    (username password : Option String) (filename : Option String)
    (comment : String) (chunksize : Nat) (parent_aoi : Option String)
    (use_https : Bool) (ebagis_port : Option Nat) (md5 : String) : Tester :=
  { username := username
    password := password
    login := !(username.isNone && password.isNone)
    filename := filename.getD basename
    comment := comment
    parent_aoi := none
    https := use_https
    host := ebagis_host
    port := ebagis_port
    md5 := md5
    file_length := content.length
    file := FileWrapper.init ⟨content, 0⟩ chunksize 0 none
    base_url := (if use_https then "https://" else "http://") ++ ebagis_host ++
      (match ebagis_port with
       | some pn => if pn ≠ 0 then ":" ++ toString pn ++ "/" else "/"
       | none => "/")
    tokenC := none
    urlC := none
    headerC := none }

/-- Result of one client operation: the value or the exception raised, the
updated client state, and the requests issued along the way. -/
abbrev OpResult (α : Type) := Except UploadError α × Tester × List Request

/-- The `token` property: on a cache miss (Python falsiness: `None` or the
empty string) it POSTs the credentials to the authentication endpoint and
caches the `token` field of the JSON body; a missing field is a `KeyError`
turned into `ValueError`. -/
def Tester.token (server : Server) (t : Tester) : OpResult String :=
  let needFetch := match t.tokenC with
    | none => true
    | some s => s = ""
  if needFetch then
    let req := Request.auth (t.base_url ++ AUTHURL) t.username t.password
    match server.authResp.token with
    | some tok => (.ok tok, { t with tokenC := some tok }, [req])
    | none =>
        (.error (.valueError "ebagis username and/or password seems to be incorrect"),
         t, [req])
  else (.ok (t.tokenC.getD ""), t, [])

/-- The `header` property: on a cache miss (`None` or the empty dict are
falsy) it builds a fresh dict, adding an `Authorization` entry from `token`
only when `login` is set, and caches it. -/
def Tester.header (server : Server) (t : Tester) : OpResult (List (String × String)) :=
  let needBuild := match t.headerC with
    | none => true
    | some h => h = []
  if needBuild then
    if t.login then
      match Tester.token server t with
      | (.error e, t1, reqs) => (.error e, t1, reqs)
      | (.ok tok, t1, reqs) =>
          let h := [("Authorization", "Token " ++ tok)]
          (.ok h, { t1 with headerC := some h }, reqs)
    else (.ok [], { t with headerC := some [] }, [])
  else (.ok (t.headerC.getD []), t, [])

/-- The `params` property. -/
def Tester.params (t : Tester) : Params :=
  { filename := t.filename, comment := t.comment, parent_object_id := t.parent_aoi }

/-- The `url` property: the cached resource url when truthy, else the
collection endpoint. -/
def Tester.url (t : Tester) : String :=
  match t.urlC with
  | none => t.base_url ++ UPLOADURL
  | some u => if u = "" then t.base_url ++ UPLOADURL else u

/-- The `Content-Range` value `put_chunk` computes: the local cursor, the
locally computed chunk end (cursor plus block size, capped at the file
length), and the file length. -/
def contentRangeOf (t : Tester) : String :=
  "bytes " ++ toString t.file.file.pos ++ "-" ++
    toString (if t.file.file.pos + t.file.blocksize < t.file_length then
      t.file.file.pos + t.file.blocksize else t.file_length) ++
    "/" ++ toString t.file_length

/-- `UploadTester.put_chunk`: builds the header (which may authenticate),
computes the local `Content-Range` from the cursor, the block size and the
file length, mutates the shared header dict, reads the next chunk
(`StopIteration` becomes `.stop`), PUTs it, and on a 200 status with no
resource url cached stores the `url` field of the response body.  `k` is
the index of this chunk PUT, used to select the server's answer. -/
def Tester.put_chunk (server : Server) (k : Nat) (t : Tester) : OpResult ChunkOutcome :=
  match Tester.header server t with
  | (.error e, t1, reqs) => (.error e, t1, reqs)
  | (.ok hdr, t1, reqs) =>
    let hdr1 := dictSet hdr "Content-Range" (contentRangeOf t1)
    let t2 := { t1 with headerC := some hdr1 }
    let nx := FileWrapper.next t2.file
    let t3 := { t2 with file := nx.2 }
    match nx.1 with
    | none => (.ok .stop, t3, reqs)
    | some data =>
      let req := Request.putChunk (Tester.url t3) hdr1 (Tester.params t3) data
      let resp := server.chunkResp k
      if optStrFalsy t3.urlC && (resp.status == 200) then
        match resp.url with
        | none => (.error .keyError, t3, reqs ++ [req])
        | some u => (.ok (.resp resp), { t3 with urlC := some u }, reqs ++ [req])
      else (.ok (.resp resp), t3, reqs ++ [req])

/-- `UploadTester.post_complete`: POSTs the upload parameters plus the md5
digest to `url`. -/
def Tester.post_complete (server : Server) (t : Tester) : OpResult Response :=
  let p := Tester.params t
  let cp : CParams := ⟨p.filename, p.comment, p.parent_object_id, t.md5⟩
  let u := Tester.url t
  match Tester.header server t with
  | (.error e, t1, reqs) => (.error e, t1, reqs)
  | (.ok hdr, t1, reqs) =>
      (.ok server.completeResp, t1, reqs ++ [Request.postComplete u hdr cp])

/-- `UploadTester.post_upload`: single-shot POST of the whole remaining
file content plus the md5 digest; `requests` drains the file iterator. -/
def Tester.post_upload (server : Server) (t : Tester) : OpResult Response :=
  let p := Tester.params t
  let cp : CParams := ⟨p.filename, p.comment, p.parent_object_id, t.md5⟩
  let u := Tester.url t
  match Tester.header server t with
  | (.error e, t1, reqs) => (.error e, t1, reqs)
  | (.ok hdr, t1, reqs) =>
      let payload := t1.file.file.content.drop t1.file.file.pos
      let t2 := { t1 with file := { t1.file with file :=
        { t1.file.file with pos := t1.file.file.content.length } } }
      (.ok server.uploadResp, t2, reqs ++ [Request.postUpload u hdr cp payload])

/-- The chunked branch of `UploadTester.upload`: loop `put_chunk` and
`raise_for_status` until `StopIteration`, then `post_complete` and
`raise_for_status`.  `k` counts the chunk PUTs issued so far and `fuel`
bounds the iterations (`none` means the fuel ran out). -/
def uploadLoop (server : Server) :
    Nat → Nat → Tester → Option (Except UploadError Unit × Tester × List Request)
  | 0, _, _ => none
  | fuel + 1, k, t =>
    match Tester.put_chunk server k t with
    | (.error e, t1, reqs) => some (.error e, t1, reqs)
    | (.ok .stop, t1, reqs) =>
        match Tester.post_complete server t1 with
        | (.error e, t2, reqs2) => some (.error e, t2, reqs ++ reqs2)
        | (.ok r, t2, reqs2) =>
            match raise_for_status r with
            | .error e => some (.error e, t2, reqs ++ reqs2)
            | .ok _ => some (.ok (), t2, reqs ++ reqs2)
    | (.ok (.resp r), t1, reqs) =>
        match raise_for_status r with
        | .error e => some (.error e, t1, reqs)
        | .ok _ =>
            match uploadLoop server fuel (k + 1) t1 with
            | none => none
            | some (res, t2, reqs2) => some (res, t2, reqs ++ reqs2)

/-- `UploadTester.upload`: the chunked loop, or the single-shot POST. -/
def Tester.upload (server : Server) (chunk_upload : Bool) (fuel : Nat)
    (t : Tester) : Option (Except UploadError Unit × Tester × List Request) :=
  if chunk_upload then uploadLoop server fuel 0 t
  else some (
    match Tester.post_upload server t with
    | (.error e, t1, reqs) => (.error e, t1, reqs)
    | (.ok r, t1, reqs) =>
        match raise_for_status r with
        | .error e => (.error e, t1, reqs)
        | .ok _ => (.ok (), t1, reqs))

/-- Whether a recorded request is a chunk PUT. -/
def Request.isChunkPut : Request → Bool
  | .putChunk .. => true
  | _ => false

/-- Whether a recorded request is a finalize POST. -/
def Request.isComplete : Request → Bool
  | .postComplete .. => true
  | _ => false

/-- The `Content-Range` header of a recorded chunk PUT. -/
def Request.contentRange? : Request → Option String
  | .putChunk _ h _ _ => (h.find? (fun q => q.1 == "Content-Range")).map Prod.snd
  | _ => none

/-- The payload of a recorded chunk PUT. -/
def Request.payload? : Request → Option (List Nat)
  | .putChunk _ _ _ d => some d
  | _ => none

/-- The target url of a recorded request. -/
def Request.reqUrl : Request → String
  | .auth u _ _ => u
  | .putChunk u _ _ _ => u
  | .postComplete u _ _ => u
  | .postUpload u _ _ _ => u

/-- The form fields of a recorded chunk PUT. -/
def Request.chunkParams? : Request → Option Params
  | .putChunk _ _ ps _ => some ps
  | _ => none

/-- The `Content-Range` headers of the chunk PUTs of a trace, in order. -/
def chunkCRs (trace : List Request) : List String :=
  trace.filterMap Request.contentRange?

/-- Whether the first component of a `put_chunk` result is a returned
response (as opposed to `StopIteration` or an exception). -/
def isRespOk : Except UploadError ChunkOutcome → Bool
  | .ok (.resp _) => true
  | _ => false

/-- The response returned by a `put_chunk` result, when there is one. -/
def respOf : Except UploadError ChunkOutcome → Option Response
  | .ok (.resp r) => some r
  | _ => none

/-- Whether an upload run (with enough fuel) returned normally. -/
def loopOk (o : Option (Except UploadError Unit × Tester × List Request)) : Bool :=
  match o with
  | some (.ok _, _, _) => true
  | _ => false

/-- Whether an upload run's trace contains a finalize POST. -/
def loopHasComplete (o : Option (Except UploadError Unit × Tester × List Request)) : Bool :=
  match o with
  | some (_, _, tr) => tr.any Request.isComplete
  | none => false

/-- A request with no `Authorization` entry in its header map; an
authentication exchange never satisfies this. -/
def Request.noAuth : Request → Bool
  | .auth .. => false
  | .putChunk _ h _ _ => h.all (fun q => q.1 != "Authorization")
  | .postComplete _ h _ => h.all (fun q => q.1 != "Authorization")
  | .postUpload _ h _ _ => h.all (fun q => q.1 != "Authorization")

/-- Whether every request of an upload run's trace is free of
`Authorization` headers and of authentication exchanges. -/
def traceAllNoAuth (o : Option (Except UploadError Unit × Tester × List Request)) : Bool :=
  match o with
  | some (_, _, tr) => tr.all Request.noAuth
  | none => true

/-- The `token` property only ever changes the `_token` cache. -/
lemma token_state (server : Server) (t : Tester) :
    (Tester.token server t).2.1 =
      { t with tokenC := (Tester.token server t).2.1.tokenC } := by
  unfold Tester.token
  rcases t.tokenC with _ | s
  · rcases server.authResp.token with _ | tok <;> rfl
  · by_cases hs : s = ""
    · rcases server.authResp.token with _ | tok <;> simp [hs]
    · simp [hs]

/-- The `header` property only ever changes the `_token` and `_header`
caches. -/
lemma header_state (server : Server) (t : Tester) :
    (Tester.header server t).2.1 =
      { t with tokenC := (Tester.header server t).2.1.tokenC,
               headerC := (Tester.header server t).2.1.headerC } := by
  have ht1 := token_state server t
  unfold Tester.header
  rcases t.headerC with _ | hc
  · by_cases hl : t.login = true
    · rcases htok : Tester.token server t with ⟨res, t1, reqs⟩
      rw [htok] at ht1
      simp only at ht1
      rcases res with e | tok <;>
        · rw [if_pos hl]
          simp only [eq_self_iff_true, decide_True, if_true]
          rw [ht1]
    · simp [hl]
  · by_cases hc0 : hc = []
    · subst hc0
      by_cases hl : t.login = true
      · rcases htok : Tester.token server t with ⟨res, t1, reqs⟩
        rw [htok] at ht1
        simp only at ht1
        rcases res with e | tok <;>
          · rw [if_pos hl]
            simp only [eq_self_iff_true, decide_True, if_true]
            rw [ht1]
      · simp [hl]
    · simp [hc0]

/-- A header build does not move the file cursor. -/
lemma header_file (server : Server) (t : Tester) :
    (Tester.header server t).2.1.file = t.file := by
  conv_lhs => rw [header_state server t]

/-- A header build does not change the recorded file length. -/
lemma header_file_length (server : Server) (t : Tester) :
    (Tester.header server t).2.1.file_length = t.file_length := by
  conv_lhs => rw [header_state server t]

/-- A header build does not change the resource-url cache. -/
lemma header_urlC (server : Server) (t : Tester) :
    (Tester.header server t).2.1.urlC = t.urlC := by
  conv_lhs => rw [header_state server t]

/-- A header build does not change the base url. -/
lemma header_base_url (server : Server) (t : Tester) :
    (Tester.header server t).2.1.base_url = t.base_url := by
  conv_lhs => rw [header_state server t]

/-- A header build does not change the `login` flag. -/
lemma header_login (server : Server) (t : Tester) :
    (Tester.header server t).2.1.login = t.login := by
  conv_lhs => rw [header_state server t]

/-- The trace of the `token` property: nothing, or one authentication
POST carrying the configured credentials. -/
lemma token_trace (server : Server) (t : Tester) :
    (Tester.token server t).2.2 = [] ∨
    (Tester.token server t).2.2 =
      [Request.auth (t.base_url ++ AUTHURL) t.username t.password] := by
  unfold Tester.token
  rcases t.tokenC with _ | s
  · rcases server.authResp.token with _ | tok <;> simp
  · by_cases hs : s = ""
    · rcases server.authResp.token with _ | tok <;> simp [hs]
    · simp [hs]

/-- The trace of the `header` property is empty or that of `token`. -/
lemma header_trace (server : Server) (t : Tester) :
    (Tester.header server t).2.2 = [] ∨
    (Tester.header server t).2.2 = (Tester.token server t).2.2 := by
  unfold Tester.header
  rcases t.headerC with _ | hc
  · by_cases hl : t.login = true
    · rcases htok : Tester.token server t with ⟨res, t1, reqs⟩
      rcases res with e | tok <;> simp [hl, htok]
    · simp [hl]
  · by_cases hc0 : hc = []
    · subst hc0
      by_cases hl : t.login = true
      · rcases htok : Tester.token server t with ⟨res, t1, reqs⟩
        rcases res with e | tok <;> simp [hl, htok]
      · simp [hl]
    · simp [hc0]

/-- `token` never issues a chunk PUT. -/
lemma token_no_chunkput (server : Server) (t : Tester) :
    ((Tester.token server t).2.2).any Request.isChunkPut = false := by
  rcases token_trace server t with h | h <;> rw [h] <;> rfl

/-- `header` never issues a chunk PUT. -/
lemma header_no_chunkput (server : Server) (t : Tester) :
    ((Tester.header server t).2.2).any Request.isChunkPut = false := by
  rcases header_trace server t with h | h
  · rw [h]; rfl
  · rw [h]; exact token_no_chunkput server t

/-- `put_chunk` when the header build raises: the exception propagates. -/
lemma put_chunk_header_err (server : Server) (k : Nat) (t : Tester)
    (e : UploadError) (t1 : Tester) (reqs : List Request)
    (hh : Tester.header server t = (.error e, t1, reqs)) :
    Tester.put_chunk server k t = (.error e, t1, reqs) := by
  unfold Tester.put_chunk
  rw [hh]

/-- `put_chunk` when the chunk iterator is exhausted: `StopIteration`
propagates after the shared header dict was already mutated. -/
lemma put_chunk_stop (server : Server) (k : Nat) (t : Tester)
    (hdr : List (String × String)) (t1 : Tester) (hreqs : List Request)
    (hh : Tester.header server t = (.ok hdr, t1, hreqs))
    (fw1 : FileWrapper) (hnx : FileWrapper.next t1.file = (none, fw1)) :
    Tester.put_chunk server k t =
      (.ok .stop,
       { t1 with headerC := some (dictSet hdr "Content-Range" (contentRangeOf t1)),
                 file := fw1 },
       hreqs) := by
  unfold Tester.put_chunk
  rw [hh]
  simp only [hnx]

/-- `put_chunk` when a chunk is read: the request is issued and the
response of the oracle is processed. -/
lemma put_chunk_resp (server : Server) (k : Nat) (t : Tester)
    (hdr : List (String × String)) (t1 : Tester) (hreqs : List Request)
    (hh : Tester.header server t = (.ok hdr, t1, hreqs))
    (data : List Nat) (fw1 : FileWrapper)
    (hnx : FileWrapper.next t1.file = (some data, fw1)) :
    Tester.put_chunk server k t =
      (let hdr1 := dictSet hdr "Content-Range" (contentRangeOf t1)
       let t3 : Tester := { t1 with headerC := some hdr1, file := fw1 }
       let req := Request.putChunk (Tester.url t3) hdr1 (Tester.params t3) data
       if optStrFalsy t3.urlC && ((server.chunkResp k).status == 200) then
         match (server.chunkResp k).url with
         | none => (.error .keyError, t3, hreqs ++ [req])
         | some u =>
             (.ok (.resp (server.chunkResp k)), { t3 with urlC := some u },
              hreqs ++ [req])
       else (.ok (.resp (server.chunkResp k)), t3, hreqs ++ [req])) := by
  unfold Tester.put_chunk
  rw [hh]
  simp only [hnx]

/-- `post_complete` when the header build raises. -/
lemma post_complete_err (server : Server) (t : Tester)
    (e : UploadError) (t1 : Tester) (reqs : List Request)
    (hh : Tester.header server t = (.error e, t1, reqs)) :
    Tester.post_complete server t = (.error e, t1, reqs) := by
  unfold Tester.post_complete
  rw [hh]

/-- `post_complete` when the header is available: one finalize POST with
the upload parameters plus the md5 digest, answered by the oracle. -/
lemma post_complete_ok (server : Server) (t : Tester)
    (hdr : List (String × String)) (t1 : Tester) (hreqs : List Request)
    (hh : Tester.header server t = (.ok hdr, t1, hreqs)) :
    Tester.post_complete server t =
      (.ok server.completeResp, t1,
       hreqs ++ [Request.postComplete (Tester.url t) hdr
         ⟨t.filename, t.comment, t.parent_aoi, t.md5⟩]) := by
  unfold Tester.post_complete
  rw [hh]
  rfl

/-- `next` on an arbitrary wrapper with no end bound. -/
lemma FileWrapper.next_noEnd2 (fw : FileWrapper) (h : fw.endB = none) :
    FileWrapper.next fw =
      (if (fw.file.content.drop fw.file.pos).take fw.blocksize = [] then none
       else some ((fw.file.content.drop fw.file.pos).take fw.blocksize),
       { fw with file := { fw.file with pos := fw.file.pos +
           ((fw.file.content.drop fw.file.pos).take fw.blocksize).length } }) := by
  rcases fw with ⟨⟨L, p⟩, C, s, eb⟩
  simp only at h
  subst h
  exact FileWrapper.next_noEnd L p C s

/-- Looking up the key just written by `dictSet`. -/
lemma dictSet_find (d : List (String × String)) (k v : String) :
    (dictSet d k v).find? (fun q => q.1 == k) = some (k, v) := by
  induction d with
  | nil => simp [dictSet]
  | cons a rest ih =>
    rcases a with ⟨a1, a2⟩
    by_cases h : a1 = k
    · simp [dictSet, h]
    · simp only [dictSet, if_neg h]
      rw [List.find?_cons_of_neg _ (by simp [h]), ih]

/-- What a `put_chunk` call that issued a chunk PUT did: the iterator was
not exhausted, the cursor advanced by the number of bytes read, the issued
request is the last of the trace, and it carries the locally computed
`Content-Range` and exactly the bytes read. -/
lemma put_chunk_resp_facts (server : Server) (k : Nat) (t : Tester)
    (hend : t.file.endB = none)
    (h : ((Tester.put_chunk server k t).2.2).any Request.isChunkPut = true) :
    (t.file.file.content.drop t.file.file.pos).take t.file.blocksize ≠ [] ∧
    (Tester.put_chunk server k t).2.1.file.file.pos =
      t.file.file.pos +
        ((t.file.file.content.drop t.file.file.pos).take t.file.blocksize).length ∧
    (((Tester.put_chunk server k t).2.2).getLast?.bind Request.contentRange?) =
      some (contentRangeOf t) ∧
    (((Tester.put_chunk server k t).2.2).getLast?.bind Request.payload?) =
      some ((t.file.file.content.drop t.file.file.pos).take t.file.blocksize) := by
  rcases hh : Tester.header server t with ⟨res, t1, hreqs⟩
  have hfile : t1.file = t.file := by
    have hx := header_file server t; rw [hh] at hx; exact hx
  have hflen : t1.file_length = t.file_length := by
    have hx := header_file_length server t; rw [hh] at hx; exact hx
  have hcr : contentRangeOf t1 = contentRangeOf t := by
    unfold contentRangeOf
    rw [hfile, hflen]
  have hnocp : hreqs.any Request.isChunkPut = false := by
    have hx := header_no_chunkput server t; rw [hh] at hx; exact hx
  rcases res with e | hdr
  · rw [put_chunk_header_err server k t e t1 hreqs hh] at h
    rw [h] at hnocp
    exact absurd hnocp (by simp)
  · have hendt1 : t1.file.endB = none := by rw [hfile]; exact hend
    have hnx := FileWrapper.next_noEnd2 t1.file hendt1
    by_cases hdata :
        (t1.file.file.content.drop t1.file.file.pos).take t1.file.blocksize = []
    · rw [if_pos hdata] at hnx
      rw [put_chunk_stop server k t hdr t1 hreqs hh _ hnx] at h
      rw [h] at hnocp
      exact absurd hnocp (by simp)
    · rw [if_neg hdata] at hnx
      rw [put_chunk_resp server k t hdr t1 hreqs hh _ _ hnx]
      dsimp only
      rw [hfile] at hdata
      refine ⟨hdata, ?_⟩
      split
      · split
        · refine ⟨by dsimp only; rw [hfile], ?_, ?_⟩ <;>
            simp [List.getLast?_concat, Request.contentRange?, Request.payload?,
              dictSet_find, hcr, hfile]
        · refine ⟨by dsimp only; rw [hfile], ?_, ?_⟩ <;>
            simp [List.getLast?_concat, Request.contentRange?, Request.payload?,
              dictSet_find, hcr, hfile]
      · refine ⟨by dsimp only; rw [hfile], ?_, ?_⟩ <;>
          simp [List.getLast?_concat, Request.contentRange?, Request.payload?,
            dictSet_find, hcr, hfile]

/-- A `put_chunk` call that returned a response did issue a chunk PUT. -/
lemma isRespOk_issued (server : Server) (k : Nat) (t : Tester)
    (h : isRespOk (Tester.put_chunk server k t).1 = true) :
    ((Tester.put_chunk server k t).2.2).any Request.isChunkPut = true := by
  rcases hh : Tester.header server t with ⟨res, t1, hreqs⟩
  rcases res with e | hdr
  · rw [put_chunk_header_err server k t e t1 hreqs hh] at h
    simp [isRespOk] at h
  · rcases hnx : FileWrapper.next t1.file with ⟨od, fw1⟩
    rcases od with _ | data
    · rw [put_chunk_stop server k t hdr t1 hreqs hh fw1 hnx] at h
      simp [isRespOk] at h
    · rw [put_chunk_resp server k t hdr t1 hreqs hh data fw1 hnx]
      dsimp only
      split
      · split <;> simp [List.any_append, Request.isChunkPut]
      · simp [List.any_append, Request.isChunkPut]

/-- Step equation of the chunked upload loop. -/
lemma uploadLoop_succ (server : Server) (fuel k : Nat) (t : Tester) :
    uploadLoop server (fuel + 1) k t =
      match Tester.put_chunk server k t with
      | (.error e, t1, reqs) => some (.error e, t1, reqs)
      | (.ok .stop, t1, reqs) =>
          match Tester.post_complete server t1 with
          | (.error e, t2, reqs2) => some (.error e, t2, reqs ++ reqs2)
          | (.ok r, t2, reqs2) =>
              match raise_for_status r with
              | .error e => some (.error e, t2, reqs ++ reqs2)
              | .ok _ => some (.ok (), t2, reqs ++ reqs2)
      | (.ok (.resp r), t1, reqs) =>
          match raise_for_status r with
          | .error e => some (.error e, t1, reqs)
          | .ok _ =>
              match uploadLoop server fuel (k + 1) t1 with
              | none => none
              | some (res, t2, reqs2) => some (res, t2, reqs ++ reqs2) := rfl

/-- A ten-byte file whose byte values equal their offsets. -/
def content10 : List Nat := [0, 1, 2, 3, 4, 5, 6, 7, 8, 9]

/-- An anonymous client over `content10` with chunk size 4 (host `h`,
HTTPS, no port, file name `f.zip`). -/
def tester10 : Tester :=
  Tester.init "h" content10 "f.zip" none none none "" 4 none true none "m"

/-- A server whose chunk responses are 200 with a resource url and a
reported next offset of `7`, differing from the client's local
expectation. -/
def server7 : Server :=
  { authResp := ⟨200, none, none, some "tok"⟩
    chunkResp := fun _ => ⟨200, some "https://h/api/rest/uploads/1/", some 7, none⟩
    completeResp := ⟨201, none, none, none⟩
    uploadResp := ⟨201, none, none, none⟩ }

/-- `token` never issues a finalize POST. -/
lemma token_no_complete (server : Server) (t : Tester) :
    ((Tester.token server t).2.2).any Request.isComplete = false := by
  rcases token_trace server t with h | h <;> rw [h] <;> rfl

/-- `header` never issues a finalize POST. -/
lemma header_no_complete (server : Server) (t : Tester) :
    ((Tester.header server t).2.2).any Request.isComplete = false := by
  rcases header_trace server t with h | h
  · rw [h]; rfl
  · rw [h]; exact token_no_complete server t

/-- `put_chunk` never issues a finalize POST. -/
lemma put_chunk_no_complete (server : Server) (k : Nat) (t : Tester) :
    ((Tester.put_chunk server k t).2.2).any Request.isComplete = false := by
  rcases hh : Tester.header server t with ⟨res, t1, hreqs⟩
  have hno : hreqs.any Request.isComplete = false := by
    have hx := header_no_complete server t; rw [hh] at hx; exact hx
  rcases res with e | hdr
  · rw [put_chunk_header_err server k t e t1 hreqs hh]; exact hno
  · rcases hnx : FileWrapper.next t1.file with ⟨od, fw1⟩
    rcases od with _ | data
    · rw [put_chunk_stop server k t hdr t1 hreqs hh fw1 hnx]; exact hno
    · rw [put_chunk_resp server k t hdr t1 hreqs hh data fw1 hnx]
      dsimp only
      split
      · split <;> simp [List.any_append, hno, Request.isComplete]
      · simp [List.any_append, hno, Request.isComplete]

/-- A failing `post_complete` issued no finalize POST (the failure comes
from the header build, before the request). -/
lemma post_complete_err_trace (server : Server) (t : Tester)
    (e : UploadError) (t2 : Tester) (reqs2 : List Request)
    (hh : Tester.post_complete server t = (.error e, t2, reqs2)) :
    reqs2.any Request.isComplete = false := by
  rcases hhh : Tester.header server t with ⟨hres, t1, hreqs⟩
  have hno : hreqs.any Request.isComplete = false := by
    have hx := header_no_complete server t; rw [hhh] at hx; exact hx
  rcases hres with e2 | hdr
  · rw [post_complete_err server t e2 t1 hreqs hhh] at hh
    simp only [Prod.mk.injEq] at hh
    obtain ⟨_, _, h3⟩ := hh
    rw [← h3]
    exact hno
  · rw [post_complete_ok server t hdr t1 hreqs hhh] at hh
    simp at hh

/-- A returning `post_complete` returned the oracle's finalize response
and did issue a finalize POST. -/
lemma post_complete_ok_trace (server : Server) (t : Tester)
    (r : Response) (t2 : Tester) (reqs2 : List Request)
    (hh : Tester.post_complete server t = (.ok r, t2, reqs2)) :
    r = server.completeResp ∧ reqs2.any Request.isComplete = true := by
  rcases hhh : Tester.header server t with ⟨hres, t1, hreqs⟩
  rcases hres with e2 | hdr
  · rw [post_complete_err server t e2 t1 hreqs hhh] at hh
    simp at hh
  · rw [post_complete_ok server t hdr t1 hreqs hhh] at hh
    simp only [Prod.mk.injEq] at hh
    obtain ⟨h1, _, h3⟩ := hh
    constructor
    · exact (Except.ok.inj h1).symm
    · rw [← h3]
      simp [List.any_append, Request.isComplete]

/-- Core of the finalize-gating claim: a loop run that terminated within
its fuel returned normally exactly when its trace holds a finalize POST
and the oracle's finalize response has a non-error status. -/
lemma uploadLoop_ok_iff (server : Server) :
    ∀ fuel k t out, uploadLoop server fuel k t = some out →
      (out.1 = .ok () ↔
        (out.2.2.any Request.isComplete = true ∧
         raise_for_status server.completeResp = .ok ())) := by
  intro fuel
  induction fuel with
  | zero => intro k t out h; exact absurd h (by simp [uploadLoop])
  | succ fuel ih =>
    intro k t out h
    rw [uploadLoop_succ] at h
    rcases hpc : Tester.put_chunk server k t with ⟨res1, t1, reqs1⟩
    rw [hpc] at h
    have hno1 : reqs1.any Request.isComplete = false := by
      have hx := put_chunk_no_complete server k t; rw [hpc] at hx; exact hx
    rcases res1 with e | oc
    · dsimp only at h
      injection h with h
      subst h
      simp [hno1]
    · rcases oc with _ | r
      · dsimp only at h
        rcases hc2 : Tester.post_complete server t1 with ⟨res2, t2, reqs2⟩
        rw [hc2] at h
        rcases res2 with e2 | r2
        · dsimp only at h
          injection h with h
          subst h
          have hno2 := post_complete_err_trace server t1 e2 t2 reqs2 hc2
          simp [List.any_append, hno1, hno2]
        · dsimp only at h
          obtain ⟨hr2, hhas⟩ := post_complete_ok_trace server t1 r2 t2 reqs2 hc2
          subst hr2
          rcases hrs : raise_for_status server.completeResp with e3 | uu
          · rw [hrs] at h
            dsimp only at h
            injection h with h
            subst h
            simp [hrs]
          · rw [hrs] at h
            dsimp only at h
            injection h with h
            subst h
            simp [List.any_append, hhas, hrs]
      · dsimp only at h
        rcases hrs : raise_for_status r with e3 | uu
        · rw [hrs] at h
          dsimp only at h
          injection h with h
          subst h
          simp [hno1]
        · rw [hrs] at h
          dsimp only at h
          rcases hrec : uploadLoop server fuel (k + 1) t1 with _ | out2
          · rw [hrec] at h
            simp at h
          · rw [hrec] at h
            rcases out2 with ⟨res2, t2, reqs2⟩
            dsimp only at h
            injection h with h
            subst h
            have hx := ih (k + 1) t1 (res2, t2, reqs2) hrec
            simp only at hx
            simpa [List.any_append, hno1] using hx

/-- A server whose chunk responses have status 201 (a success status that
is not 200) with a resource url in the body. -/
def server201 : Server :=
  { authResp := ⟨200, none, none, some "tok"⟩
    chunkResp := fun _ => ⟨201, some "https://h/u/1/", some 4, none⟩
    completeResp := ⟨200, none, none, none⟩
    uploadResp := ⟨200, none, none, none⟩ }

/-- C2: for a file of content `L` (size `S`) and chunk size `C > 0`,
iterating the Chunk Source built by the constructor (cursor 0, no end
bound) until end-of-sequence yields chunks that concatenate to exactly the
file content, in order (no gaps, overlaps or reordering); every chunk
except the last has length `C`, and the last has length `S mod C`, or `C`
when `S mod C = 0` and `S > 0` (an empty file yields no chunks). -/
theorem chunk_partition (L : List Nat) (C : Nat) (hC : 0 < C) :
    (chunksOf L C).flatten = L ∧
    (∀ c ∈ (chunksOf L C).dropLast, c.length = C) ∧
    (L ≠ [] → (chunksOf L C).getLast?.map List.length =
        some (if L.length % C = 0 then C else L.length % C)) ∧
    (L = [] → chunksOf L C = []) := by
  obtain ⟨hjoin, _, hdrop, hnil, hlast⟩ :=
    iterChunks_spec L C hC (L.length + 1) 0 (by omega)
  have hch : chunksOf L C = iterChunks (L.length + 1) ⟨⟨L, 0⟩, C, 0, none⟩ := rfl
  rw [hch]
  refine ⟨by simpa using hjoin, hdrop, ?_, ?_⟩
  · intro hne
    have hlen : 0 < L.length := List.length_pos.mpr hne
    have hx := hlast (by omega)
    simpa using hx
  · intro he
    subst he
    exact hnil.mpr (by simp)

/-- Witness for `chunk_partition`: five bytes with chunk size two give
chunks of sizes two, two and one. -/
theorem chunk_partition_witness :
    (0 : Nat) < 2 ∧
    ((chunksOf [0, 1, 2, 3, 4] 2).flatten = [0, 1, 2, 3, 4] ∧
     (∀ c ∈ (chunksOf [0, 1, 2, 3, 4] 2).dropLast, c.length = 2) ∧
     (([0, 1, 2, 3, 4] : List Nat) ≠ [] →
       (chunksOf [0, 1, 2, 3, 4] 2).getLast?.map List.length =
         some (if ([0, 1, 2, 3, 4] : List Nat).length % 2 = 0 then 2
           else ([0, 1, 2, 3, 4] : List Nat).length % 2)) ∧
     (([0, 1, 2, 3, 4] : List Nat) = [] → chunksOf [0, 1, 2, 3, 4] 2 = [])) :=
  ⟨by decide, chunk_partition [0, 1, 2, 3, 4] 2 (by decide)⟩

/-- C9 amended: a read of a wrapper with a positive end bound, from a
cursor at or before that bound, never returns bytes crossing the bound:
the data is the slice starting at the cursor, and cursor plus data length
stays at most the bound.  (For a zero bound, or a cursor strictly past the
bound, the source does cross the bound: the clamp is skipped for a falsy
bound, and a negative remaining size makes Python read to end of file.) -/
theorem end_bound_respected (fw : FileWrapper) (e : Nat) (d : List Nat)
    (hend : fw.endB = some e) (he : 0 < e) (hpos : fw.file.pos ≤ e)
    (h : (FileWrapper.next fw).1 = some d) :
    fw.file.pos + d.length ≤ e := by
  rcases fw with ⟨⟨L, p⟩, C, s, eb⟩
  simp only at hend hpos ⊢
  subst hend
  unfold FileWrapper.next FileWrapper.readAux at h
  simp only [natKeyTruthy, Bool.false_eq_true, if_false] at h
  by_cases hc : e ≠ 0 ∧ p + C > e
  · rw [if_pos hc] at h
    have hnn : ¬ ((e : Int) - (p : Int) < 0) := by omega
    unfold pyRead at h
    rw [if_neg hnn] at h
    have htn : ((e : Int) - (p : Int)).toNat = e - p := by omega
    rw [htn] at h
    simp only at h
    split at h
    · exact absurd h (by simp)
    · have hd : d = (L.drop p).take (e - p) := by
        injection h with h
        exact h.symm
      have hlen : d.length ≤ e - p := by
        rw [hd, List.length_take, List.length_drop]
        omega
      omega
  · rw [if_neg hc] at h
    have hle : p + C ≤ e := by
      rcases Decidable.not_and_iff_or_not.mp hc with h0 | h1
      · omega
      · omega
    have hnn : ¬ ((C : Int) < 0) := by omega
    unfold pyRead at h
    rw [if_neg hnn] at h
    simp only [Int.toNat_natCast] at h
    split at h
    · exact absurd h (by simp)
    · have hd : d = (L.drop p).take C := by
        injection h with h
        exact h.symm
      have hlen : d.length ≤ C := by
        rw [hd, List.length_take, List.length_drop]
        omega
      omega

/-- Witness for `end_bound_respected`: a four-byte read from cursor 0 with
end bound 5 stays within the bound. -/
theorem end_bound_respected_witness :
    ((⟨⟨content10, 0⟩, 4, 0, some 5⟩ : FileWrapper).endB = some 5) ∧
    ((0 : Nat) < 5) ∧
    ((⟨⟨content10, 0⟩, 4, 0, some 5⟩ : FileWrapper).file.pos ≤ 5) ∧
    ((FileWrapper.next ⟨⟨content10, 0⟩, 4, 0, some 5⟩).1 = some [0, 1, 2, 3]) ∧
    ((⟨⟨content10, 0⟩, 4, 0, some 5⟩ : FileWrapper).file.pos +
      ([0, 1, 2, 3] : List Nat).length ≤ 5) :=
  ⟨rfl, by decide, by decide, by decide,
    end_bound_respected ⟨⟨content10, 0⟩, 4, 0, some 5⟩ 5 [0, 1, 2, 3] rfl
      (by decide) (by decide) (by decide)⟩

/-- C9 counterexample: with end bound 5 and the cursor seeked to 7 (past
the bound), the computed read size is negative, Python's `read` returns the
whole rest of the file, and `next` hands back the three bytes at offsets
7, 8 and 9 — entirely at or past the bound, so the read is not clamped to
the range from the cursor up to the bound. -/
theorem end_bound_crossed :
    ((FileWrapper.seek ⟨⟨content10, 0⟩, 4, 0, some 5⟩ 7).endB = some 5) ∧
    ((FileWrapper.seek ⟨⟨content10, 0⟩, 4, 0, some 5⟩ 7).file.pos = 7) ∧
    ((FileWrapper.next (FileWrapper.seek ⟨⟨content10, 0⟩, 4, 0, some 5⟩ 7)).1 =
      some [7, 8, 9]) ∧
    ¬ ((FileWrapper.seek ⟨⟨content10, 0⟩, 4, 0, some 5⟩ 7).file.pos +
        ([7, 8, 9] : List Nat).length ≤ 5) := by
  refine ⟨rfl, rfl, by decide, by decide⟩

/-- C1 amended: after a chunk PUT that returns a response, the Chunk Source
cursor sits at the locally computed chunk end
`min (cursor + blocksize, file size)` — for every server response, whatever
`next_offset` its body reports; the client never reads the offset field, so
the next chunk always starts at the local offset, not the server-reported
one. -/
theorem put_chunk_advances_locally (server : Server) (k : Nat) (t : Tester)
    (hend : t.file.endB = none)
    (h : isRespOk (Tester.put_chunk server k t).1 = true) :
    (Tester.put_chunk server k t).2.1.file.file.pos =
      min (t.file.file.pos + t.file.blocksize) t.file.file.content.length := by
  obtain ⟨hdata, hpos, _, _⟩ :=
    put_chunk_resp_facts server k t hend (isRespOk_issued server k t h)
  rw [hpos]
  have hlentake :
      ((t.file.file.content.drop t.file.file.pos).take t.file.blocksize).length =
        min t.file.blocksize (t.file.file.content.length - t.file.file.pos) := by
    rw [List.length_take, List.length_drop]
  have hne :
      0 < ((t.file.file.content.drop t.file.file.pos).take t.file.blocksize).length :=
    List.length_pos.mpr hdata
  omega

/-- Witness for `put_chunk_advances_locally`: first chunk of a ten-byte
file with chunk size 4 leaves the cursor at 4. -/
theorem put_chunk_advances_locally_witness :
    tester10.file.endB = none ∧
    isRespOk (Tester.put_chunk server7 0 tester10).1 = true ∧
    (Tester.put_chunk server7 0 tester10).2.1.file.file.pos =
      min (tester10.file.file.pos + tester10.file.blocksize)
        tester10.file.file.content.length :=
  ⟨rfl, by decide, put_chunk_advances_locally server7 0 tester10 rfl (by decide)⟩

/-- C1 counterexample: the server answers every chunk PUT with HTTP 200
and `next_offset = 7`, yet the client's second chunk request carries
`Content-Range` starting at the locally computed offset 4, not 7 — the
run's Content-Range sequence is the purely local 0-4, 4-8, 8-10, not the
0-4, 7-10 sequence the claim's server-authoritative reconciliation would
produce. -/
theorem next_chunk_ignores_server_offset :
    (server7.chunkResp 0).offset = some 7 ∧
    raise_for_status (server7.chunkResp 0) = .ok () ∧
    ((uploadLoop server7 12 0 tester10).map (fun out => chunkCRs out.2.2)) =
      some ["bytes 0-4/10", "bytes 4-8/10", "bytes 8-10/10"] ∧
    ((uploadLoop server7 12 0 tester10).map (fun out => chunkCRs out.2.2)) ≠
      some ["bytes 0-4/10", "bytes 7-10/10"] := by
  refine ⟨rfl, by decide, by decide, by decide⟩

/-- C7: whenever a chunk PUT is issued (the trace holds one) from cursor
`p`, it carries the header `Content-Range: bytes p-e/S` with
`e = min (p + blocksize, S)` for the declared file length `S`, and its
payload holds exactly `e - p` bytes, never more. -/
theorem put_chunk_content_range (server : Server) (k : Nat) (t : Tester)
    (hend : t.file.endB = none)
    (hlen : t.file_length = t.file.file.content.length)
    (h : ((Tester.put_chunk server k t).2.2).any Request.isChunkPut = true) :
    (((Tester.put_chunk server k t).2.2).getLast?.bind Request.contentRange?) =
      some ("bytes " ++ toString t.file.file.pos ++ "-" ++
        toString (min (t.file.file.pos + t.file.blocksize) t.file_length) ++
        "/" ++ toString t.file_length) ∧
    ((((Tester.put_chunk server k t).2.2).getLast?.bind Request.payload?).map
        List.length) =
      some (min (t.file.file.pos + t.file.blocksize) t.file_length -
        t.file.file.pos) := by
  obtain ⟨hdata, _, hcr, hpay⟩ := put_chunk_resp_facts server k t hend h
  have hne :
      0 < ((t.file.file.content.drop t.file.file.pos).take t.file.blocksize).length :=
    List.length_pos.mpr hdata
  have hlentake :
      ((t.file.file.content.drop t.file.file.pos).take t.file.blocksize).length =
        min t.file.blocksize (t.file.file.content.length - t.file.file.pos) := by
    rw [List.length_take, List.length_drop]
  constructor
  · rw [hcr]
    unfold contentRangeOf
    have hifmin : (if t.file.file.pos + t.file.blocksize < t.file_length then
        t.file.file.pos + t.file.blocksize else t.file_length) =
        min (t.file.file.pos + t.file.blocksize) t.file_length := by
      split <;> omega
    rw [hifmin]
  · rw [hpay]
    simp only [Option.map_some']
    congr 1
    rw [hlentake, hlen]
    omega

/-- Witness for `put_chunk_content_range`: first chunk of the ten-byte
file carries `bytes 0-4/10` and four payload bytes. -/
theorem put_chunk_content_range_witness :
    tester10.file.endB = none ∧
    tester10.file_length = tester10.file.file.content.length ∧
    ((Tester.put_chunk server7 0 tester10).2.2).any Request.isChunkPut = true ∧
    ((((Tester.put_chunk server7 0 tester10).2.2).getLast?.bind
        Request.contentRange?) =
      some ("bytes " ++ toString tester10.file.file.pos ++ "-" ++
        toString (min (tester10.file.file.pos + tester10.file.blocksize)
          tester10.file_length) ++
        "/" ++ toString tester10.file_length) ∧
     ((((Tester.put_chunk server7 0 tester10).2.2).getLast?.bind
         Request.payload?).map List.length) =
      some (min (tester10.file.file.pos + tester10.file.blocksize)
        tester10.file_length - tester10.file.file.pos)) :=
  ⟨rfl, rfl, by decide,
    put_chunk_content_range server7 0 tester10 rfl rfl (by decide)⟩

/-- C3: a chunked upload run returns normally exactly when a finalize POST
was issued and the finalize response has a non-error status; in particular
any sequence of successful chunk PUTs without a successful finalize never
completes the session (the loop raises instead).  A run that ran out of
fuel counts as neither returning nor finalizing. -/
theorem upload_ok_iff_finalize (server : Server) (fuel k : Nat) (t : Tester) :
    loopOk (uploadLoop server fuel k t) = true ↔
      (loopHasComplete (uploadLoop server fuel k t) = true ∧
       raise_for_status server.completeResp = .ok ()) := by
  rcases hrun : uploadLoop server fuel k t with _ | out
  · constructor
    · intro hb
      exact absurd hb (by simp [loopOk])
    · intro ⟨hb, _⟩
      exact absurd hb (by simp [loopHasComplete])
  · rcases out with ⟨res, t2, tr⟩
    have hx := uploadLoop_ok_iff server fuel k t (res, t2, tr) hrun
    simp only at hx
    rcases res with e | uu
    · constructor
      · intro hb
        exact absurd hb (by simp [loopOk])
      · intro hrhs
        exact absurd (hx.mpr hrhs) (by simp)
    · cases uu
      constructor
      · intro _
        exact hx.mp rfl
      · intro _
        rfl

/-- A server whose authentication response body lacks the token field. -/
def serverNoTok : Server :=
  { authResp := ⟨200, none, none, none⟩
    chunkResp := fun _ => ⟨200, some "https://h/u/1/", none, none⟩
    completeResp := ⟨200, none, none, none⟩
    uploadResp := ⟨200, none, none, none⟩ }

/-- A client constructed with credentials over a three-byte file. -/
def testerCreds : Tester :=
  Tester.init "h" [0, 1, 2] "f.zip" (some "bob") (some "pw") none "" 4 none
    true none "m"

/-- C4: with credentials configured (fresh caches) and an authentication
response body lacking the `token` key, the chunked upload raises the
incorrect-credentials error while building the headers for the first
chunk: the run's trace is exactly one authentication POST — zero chunk
PUTs — and the client state, in particular the file cursor, is returned
unchanged. -/
theorem missing_token_aborts_before_chunks (server : Server) (fuel : Nat)
    (t : Tester) (hlogin : t.login = true) (htok : t.tokenC = none)
    (hhdr : t.headerC = none) (hresp : server.authResp.token = none) :
    uploadLoop server (fuel + 1) 0 t =
      some (.error (.valueError
          "ebagis username and/or password seems to be incorrect"), t,
        [Request.auth (t.base_url ++ AUTHURL) t.username t.password]) := by
  have htokr : Tester.token server t =
      (.error (.valueError "ebagis username and/or password seems to be incorrect"),
       t, [Request.auth (t.base_url ++ AUTHURL) t.username t.password]) := by
    simp [Tester.token, htok, hresp]
  have hhdrr : Tester.header server t =
      (.error (.valueError "ebagis username and/or password seems to be incorrect"),
       t, [Request.auth (t.base_url ++ AUTHURL) t.username t.password]) := by
    simp [Tester.header, hhdr, hlogin, htokr]
  rw [uploadLoop_succ, put_chunk_header_err server 0 t _ t _ hhdrr]

/-- Witness for `missing_token_aborts_before_chunks`. -/
theorem missing_token_aborts_before_chunks_witness :
    testerCreds.login = true ∧ testerCreds.tokenC = none ∧
    testerCreds.headerC = none ∧ serverNoTok.authResp.token = none ∧
    uploadLoop serverNoTok (0 + 1) 0 testerCreds =
      some (.error (.valueError
          "ebagis username and/or password seems to be incorrect"), testerCreds,
        [Request.auth (testerCreds.base_url ++ AUTHURL) testerCreds.username
          testerCreds.password]) :=
  ⟨rfl, rfl, rfl, rfl,
    missing_token_aborts_before_chunks serverNoTok 0 testerCreds rfl rfl rfl rfl⟩

/-- C5 (bug evaluation): an `UploadTester` constructed with a non-None
parent id discards it — `self.parent_aoi` is assigned `None` — so the
instance's `parent_aoi` is `None`, its `params` carry
`parent_object_id = None`, and the chunk PUT issued sends
`parent_object_id = None` in its form fields despite the supplied id. -/
theorem parent_aoi_discarded :
    (Tester.init "h" content10 "f.zip" none none none "" 4
        (some "11111111-2222-3333-4444-555555555555") true none "m").parent_aoi =
      none ∧
    (Tester.params (Tester.init "h" content10 "f.zip" none none none "" 4
        (some "11111111-2222-3333-4444-555555555555") true none
        "m")).parent_object_id = none ∧
    (((Tester.put_chunk server7 0 (Tester.init "h" content10 "f.zip" none none
        none "" 4 (some "11111111-2222-3333-4444-555555555555") true none
        "m")).2.2).filterMap Request.chunkParams?).map Params.parent_object_id =
      [none] := by
  refine ⟨rfl, rfl, by decide⟩

/-- The `url` property of a client holding a truthy resource url is that
stored url. -/
lemma url_of_truthy (t : Tester) (h : optStrFalsy t.urlC = false) :
    Tester.url t = t.urlC.getD "" := by
  unfold Tester.url
  rcases hu : t.urlC with _ | u
  · rw [hu] at h
    simp [optStrFalsy] at h
  · rw [hu] at h
    simp only [optStrFalsy] at h
    simp only [Option.getD_some]
    rw [if_neg (by simpa using h)]

/-- C6 amended: while the resource url is unset (falsy), a chunk PUT that
returns a response stores the `url` of the response body exactly when the
status is 200 (`requests.codes.ok`); any other status — success or not —
leaves the cache unchanged.  Whenever the cache holds a truthy url, the
`url` property (the target of every subsequent chunk and finalize request)
is that stored url rather than the generic collection endpoint. -/
theorem url_stored_only_on_200 (server : Server) (k : Nat) (t : Tester)
    (r : Response) (hunset : optStrFalsy t.urlC = true)
    (h : respOf (Tester.put_chunk server k t).1 = some r) :
    (r.status = 200 → (Tester.put_chunk server k t).2.1.urlC = r.url) ∧
    (r.status ≠ 200 → (Tester.put_chunk server k t).2.1.urlC = t.urlC) ∧
    (optStrFalsy ((Tester.put_chunk server k t).2.1.urlC) = false →
      Tester.url ((Tester.put_chunk server k t).2.1) =
        ((Tester.put_chunk server k t).2.1.urlC).getD "") := by
  rcases hh : Tester.header server t with ⟨res, t1, hreqs⟩
  have hurl : t1.urlC = t.urlC := by
    have hx := header_urlC server t; rw [hh] at hx; exact hx
  rcases res with e | hdr
  · rw [put_chunk_header_err server k t e t1 hreqs hh] at h
    simp [respOf] at h
  · rcases hnx : FileWrapper.next t1.file with ⟨od, fw1⟩
    rcases od with _ | data
    · rw [put_chunk_stop server k t hdr t1 hreqs hh fw1 hnx] at h
      simp [respOf] at h
    · rw [put_chunk_resp server k t hdr t1 hreqs hh data fw1 hnx] at h ⊢
      dsimp only at h ⊢
      rw [hurl, hunset] at h ⊢
      simp only [Bool.true_and] at h ⊢
      by_cases hst : (server.chunkResp k).status = 200
      · have hstb : ((server.chunkResp k).status == 200) = true := by
          simp [hst]
        rw [hstb] at h ⊢
        simp only [if_true] at h ⊢
        rcases hu : (server.chunkResp k).url with _ | u
        · rw [hu] at h
          exact absurd (h : (none : Option Response) = some r) (by simp [respOf])
        · rw [hu] at h
          have h2 : some (server.chunkResp k) = some r :=
            (h : some (server.chunkResp k) = some r)
          injection h2 with h2
          subst h2
          refine ⟨fun _ => by rw [hu], fun hc => absurd hst hc, ?_⟩
          intro hf
          exact url_of_truthy _ hf
      · have hstb : ((server.chunkResp k).status == 200) = false := by
          simp [hst]
        rw [hstb] at h ⊢
        simp only [Bool.false_eq_true, if_false] at h ⊢
        have h2 : some (server.chunkResp k) = some r :=
          (h : some (server.chunkResp k) = some r)
        injection h2 with h2
        subst h2
        refine ⟨fun hc => absurd hc hst, fun _ => trivial, ?_⟩
        intro hf
        exact url_of_truthy _ hf

/-- Witness for `url_stored_only_on_200`: a 200 first-chunk response with
a body url stores it, and the next request targets it. -/
theorem url_stored_only_on_200_witness :
    optStrFalsy tester10.urlC = true ∧
    respOf (Tester.put_chunk server7 0 tester10).1 =
      some ⟨200, some "https://h/api/rest/uploads/1/", some 7, none⟩ ∧
    (((⟨200, some "https://h/api/rest/uploads/1/", some 7, none⟩ :
          Response).status = 200 →
        (Tester.put_chunk server7 0 tester10).2.1.urlC =
          (⟨200, some "https://h/api/rest/uploads/1/", some 7, none⟩ :
            Response).url) ∧
     ((⟨200, some "https://h/api/rest/uploads/1/", some 7, none⟩ :
          Response).status ≠ 200 →
        (Tester.put_chunk server7 0 tester10).2.1.urlC = tester10.urlC) ∧
     (optStrFalsy ((Tester.put_chunk server7 0 tester10).2.1.urlC) = false →
        Tester.url ((Tester.put_chunk server7 0 tester10).2.1) =
          ((Tester.put_chunk server7 0 tester10).2.1.urlC).getD "")) :=
  ⟨rfl, by decide,
    url_stored_only_on_200 server7 0 tester10
      ⟨200, some "https://h/api/rest/uploads/1/", some 7, none⟩ rfl (by decide)⟩

/-- C6 counterexample: the first chunk PUT is answered with status 201 — a
success status (`raise_for_status` passes) that is not 200 — and a url in
the body; the resource url cache stays `None` and the second chunk PUT
still targets the generic collection endpoint, falsifying storage on
"every HTTP success status". -/
theorem url_not_stored_on_201 :
    (server201.chunkResp 0).status = 201 ∧
    raise_for_status (server201.chunkResp 0) = .ok () ∧
    (server201.chunkResp 0).url = some "https://h/u/1/" ∧
    (Tester.put_chunk server201 0 tester10).2.1.urlC = none ∧
    ((Tester.put_chunk server201 1
        ((Tester.put_chunk server201 0 tester10).2.1)).2.2.map
      Request.reqUrl) = ["https://h/api/rest/aois/"] := by
  refine ⟨rfl, by decide, rfl, by decide, by decide⟩

/-- `post_upload` when the header build raises. -/
lemma post_upload_err (server : Server) (t : Tester)
    (e : UploadError) (t1 : Tester) (reqs : List Request)
    (hh : Tester.header server t = (.error e, t1, reqs)) :
    Tester.post_upload server t = (.error e, t1, reqs) := by
  unfold Tester.post_upload
  rw [hh]

/-- `post_upload` when the header is available: one single-shot POST whose
file part is the remaining content from the cursor, which `requests`
drains to end of file. -/
lemma post_upload_ok (server : Server) (t : Tester)
    (hdr : List (String × String)) (t1 : Tester) (hreqs : List Request)
    (hh : Tester.header server t = (.ok hdr, t1, hreqs)) :
    Tester.post_upload server t =
      (.ok server.uploadResp,
       { t1 with file := { t1.file with file :=
           { t1.file.file with pos := t1.file.file.content.length } } },
       hreqs ++ [Request.postUpload (Tester.url t) hdr
         ⟨t.filename, t.comment, t.parent_aoi, t.md5⟩
         (t1.file.file.content.drop t1.file.file.pos)]) := by
  unfold Tester.post_upload
  rw [hh]
  rfl

/-- Anonymous-mode invariant: `login` is off and any cached header dict is
free of `Authorization` entries. -/
def anonState (t : Tester) : Prop :=
  t.login = false ∧
  ∀ hd, t.headerC = some hd → hd.all (fun q => q.1 != "Authorization") = true

/-- Writing `Content-Range` keeps a header dict Authorization-free. -/
lemma dictSet_all_noauth (d : List (String × String)) (v : String)
    (hall : d.all (fun q => q.1 != "Authorization") = true) :
    (dictSet d "Content-Range" v).all (fun q => q.1 != "Authorization") = true := by
  induction d with
  | nil => simp [dictSet]
  | cons a rest ih =>
    rcases a with ⟨a1, a2⟩
    simp only [List.all_cons, Bool.and_eq_true] at hall
    by_cases h : a1 = "Content-Range"
    · simp [dictSet, h, hall.2]
    · simp only [dictSet, if_neg h, List.all_cons, Bool.and_eq_true]
      exact ⟨hall.1, ih hall.2⟩

/-- In anonymous mode `header` returns an Authorization-free dict, issues
no request, and preserves the invariant. -/
lemma header_anon (server : Server) (t : Tester) (ha : anonState t) :
    ∃ hd t1, Tester.header server t = (.ok hd, t1, []) ∧
      hd.all (fun q => q.1 != "Authorization") = true ∧ anonState t1 := by
  obtain ⟨hlog, hhd⟩ := ha
  unfold Tester.header
  rcases hc : t.headerC with _ | hd0
  · refine ⟨[], { t with headerC := some [] }, ?_, rfl, ?_⟩
    · rw [hlog]
      rfl
    · exact ⟨hlog, fun hd2 h2 => by injection h2 with h2; subst h2; rfl⟩
  · by_cases h0 : hd0 = []
    · subst h0
      refine ⟨[], { t with headerC := some [] }, ?_, rfl, ?_⟩
      · rw [hlog]
        rfl
      · exact ⟨hlog, fun hd2 h2 => by injection h2 with h2; subst h2; rfl⟩
    · refine ⟨hd0, t, ?_, hhd hd0 hc, ⟨hlog, hhd⟩⟩
      simp [h0]

/-- In anonymous mode `put_chunk` issues only Authorization-free requests
and preserves the invariant. -/
lemma put_chunk_anon (server : Server) (k : Nat) (t : Tester) (ha : anonState t) :
    anonState (Tester.put_chunk server k t).2.1 ∧
    ((Tester.put_chunk server k t).2.2).all Request.noAuth = true := by
  obtain ⟨hd, t1, hh, hall, ha1⟩ := header_anon server t ha
  have hall1 : (dictSet hd "Content-Range" (contentRangeOf t1)).all
      (fun q => q.1 != "Authorization") = true := dictSet_all_noauth hd _ hall
  rcases hnx : FileWrapper.next t1.file with ⟨od, fw1⟩
  rcases od with _ | data
  · rw [put_chunk_stop server k t hd t1 [] hh fw1 hnx]
    exact ⟨⟨ha1.1, fun hd2 h2 => by injection h2 with h2; subst h2; exact hall1⟩,
      rfl⟩
  · rw [put_chunk_resp server k t hd t1 [] hh data fw1 hnx]
    dsimp only
    split
    · split
      · exact ⟨⟨ha1.1,
          fun hd2 h2 => by injection h2 with h2; subst h2; exact hall1⟩,
          by simp [Request.noAuth, hall1]⟩
      · exact ⟨⟨ha1.1,
          fun hd2 h2 => by injection h2 with h2; subst h2; exact hall1⟩,
          by simp [Request.noAuth, hall1]⟩
    · exact ⟨⟨ha1.1,
        fun hd2 h2 => by injection h2 with h2; subst h2; exact hall1⟩,
        by simp [Request.noAuth, hall1]⟩

/-- In anonymous mode `post_complete` issues only Authorization-free
requests and preserves the invariant. -/
lemma post_complete_anon (server : Server) (t : Tester) (ha : anonState t) :
    anonState (Tester.post_complete server t).2.1 ∧
    ((Tester.post_complete server t).2.2).all Request.noAuth = true := by
  obtain ⟨hd, t1, hh, hall, ha1⟩ := header_anon server t ha
  rw [post_complete_ok server t hd t1 [] hh]
  exact ⟨ha1, by simp [Request.noAuth, hall]⟩

/-- In anonymous mode `post_upload` issues only Authorization-free
requests and preserves the invariant. -/
lemma post_upload_anon (server : Server) (t : Tester) (ha : anonState t) :
    anonState (Tester.post_upload server t).2.1 ∧
    ((Tester.post_upload server t).2.2).all Request.noAuth = true := by
  obtain ⟨hd, t1, hh, hall, ha1⟩ := header_anon server t ha
  rw [post_upload_ok server t hd t1 [] hh]
  exact ⟨⟨ha1.1, fun hd2 h2 => ha1.2 hd2 h2⟩, by simp [Request.noAuth, hall]⟩

/-- In anonymous mode the whole chunked loop issues only
Authorization-free requests. -/
lemma uploadLoop_anon (server : Server) :
    ∀ fuel k t, anonState t →
      ∀ out, uploadLoop server fuel k t = some out →
        out.2.2.all Request.noAuth = true := by
  intro fuel
  induction fuel with
  | zero => intro k t _ out h; exact absurd h (by simp [uploadLoop])
  | succ fuel ih =>
    intro k t ha out h
    rw [uploadLoop_succ] at h
    obtain ⟨ha1, hall1⟩ := put_chunk_anon server k t ha
    rcases hpc : Tester.put_chunk server k t with ⟨res1, t1, reqs1⟩
    rw [hpc] at h ha1 hall1
    simp only at ha1 hall1
    rcases res1 with e | oc
    · dsimp only at h
      injection h with h
      subst h
      exact hall1
    · rcases oc with _ | r
      · dsimp only at h
        obtain ⟨ha2, hall2⟩ := post_complete_anon server t1 ha1
        rcases hc2 : Tester.post_complete server t1 with ⟨res2, t2, reqs2⟩
        rw [hc2] at h hall2
        simp only at hall2
        rcases res2 with e2 | r2
        · dsimp only at h
          injection h with h
          subst h
          simp [List.all_append, hall1, hall2]
        · dsimp only at h
          rcases hrs : raise_for_status r2 with e3 | uu <;> rw [hrs] at h <;>
              dsimp only at h <;> injection h with h <;> subst h <;>
            simp [List.all_append, hall1, hall2]
      · dsimp only at h
        rcases hrs : raise_for_status r with e3 | uu
        · rw [hrs] at h
          dsimp only at h
          injection h with h
          subst h
          exact hall1
        · rw [hrs] at h
          dsimp only at h
          rcases hrec : uploadLoop server fuel (k + 1) t1 with _ | out2
          · rw [hrec] at h
            simp at h
          · rw [hrec] at h
            rcases out2 with ⟨res2, t2, reqs2⟩
            dsimp only at h
            injection h with h
            subst h
            have hrest := ih (k + 1) t1 ha1 (res2, t2, reqs2) hrec
            simp only at hrest
            simp [List.all_append, hall1, hrest]

/-- A client constructed without credentials is in anonymous mode. -/
lemma tester_init_anon (host : String) (content : List Nat) (basename : String)
    (fname : Option String) (comment : String) (chunksize : Nat)
    (parent : Option String) (https : Bool) (port : Option Nat) (md5 : String) :
    anonState (Tester.init host content basename none none fname comment
      chunksize parent https port md5) :=
  ⟨rfl, fun hd h => by exact absurd h (by simp [Tester.init])⟩

/-- C8: for an anonymous client (no username and no password), no request
of an upload run — chunk PUT, finalize POST, or single-shot POST — carries
an `Authorization` header, and no authentication exchange appears in the
trace, in either upload mode. -/
theorem anon_no_authorization (host : String) (content : List Nat)
    (basename : String) (fname : Option String) (comment : String)
    (chunksize : Nat) (parent : Option String) (https : Bool)
    (port : Option Nat) (md5 : String) (server : Server) (fuel : Nat)
    (cu : Bool) :
    traceAllNoAuth (Tester.upload server cu fuel
      (Tester.init host content basename none none fname comment chunksize
        parent https port md5)) = true := by
  have ha := tester_init_anon host content basename fname comment chunksize
    parent https port md5
  unfold Tester.upload
  by_cases hcu : cu = true
  · rw [if_pos hcu]
    rcases hrun : uploadLoop server fuel 0 (Tester.init host content basename
        none none fname comment chunksize parent https port md5) with _ | out
    · rfl
    · have hall := uploadLoop_anon server fuel 0 _ ha out hrun
      rcases out with ⟨res, t2, tr⟩
      simpa [traceAllNoAuth] using hall
  · rw [if_neg hcu]
    obtain ⟨ha2, hall2⟩ := post_upload_anon server (Tester.init host content
      basename none none fname comment chunksize parent https port md5) ha
    rcases hp : Tester.post_upload server (Tester.init host content basename
        none none fname comment chunksize parent https port md5) with
      ⟨res, t1, reqs⟩
    rw [hp] at hall2
    rcases res with e | r
    · exact hall2
    · show traceAllNoAuth (some (match raise_for_status r with
        | Except.error e => (Except.error e, t1, reqs)
        | Except.ok _ => (Except.ok (), t1, reqs))) = true
      rcases hrs : raise_for_status r with e2 | uu
      · exact hall2
      · exact hall2

/-- With login configured and fresh caches, the `header` build's trace is
exactly one token exchange carrying the configured credential fields as
they are, whether or not the exchange succeeds. -/
lemma header_trace_fresh (server : Server) (t : Tester)
    (hlogin : t.login = true) (htok : t.tokenC = none) (hhdr : t.headerC = none) :
    (Tester.header server t).2.2 =
      [Request.auth (t.base_url ++ AUTHURL) t.username t.password] := by
  rcases hat : server.authResp.token with _ | tok
  · simp [Tester.header, Tester.token, hhdr, hlogin, htok, hat]
  · simp [Tester.header, Tester.token, hhdr, hlogin, htok, hat]

/-- The first chunk PUT of a logged-in client with fresh caches starts
with a token exchange carrying the configured credential fields as they
are. -/
lemma put_chunk_first_auth (server : Server) (k : Nat) (t : Tester)
    (hlogin : t.login = true) (htok : t.tokenC = none) (hhdr : t.headerC = none) :
    ((Tester.put_chunk server k t).2.2).head? =
      some (Request.auth (t.base_url ++ AUTHURL) t.username t.password) := by
  have htr := header_trace_fresh server t hlogin htok hhdr
  rcases hh : Tester.header server t with ⟨res, t1, hreqs⟩
  rw [hh] at htr
  simp only at htr
  subst htr
  rcases res with e | hdr
  · rw [put_chunk_header_err server k t e t1 _ hh]
    rfl
  · rcases hnx : FileWrapper.next t1.file with ⟨od, fw1⟩
    rcases od with _ | data
    · rw [put_chunk_stop server k t hdr t1 _ hh fw1 hnx]
      rfl
    · rw [put_chunk_resp server k t hdr t1 _ hh data fw1 hnx]
      dsimp only
      split
      · split <;> rfl
      · rfl

/-- C10: constructing the client with exactly one of the two credentials
still selects login mode (`login` is true), and the first chunk PUT opens
with a token exchange whose form carries both credential fields, the
missing one as `None` — the client does not fall back to anonymous mode. -/
theorem one_credential_still_authenticates (host : String) (content : List Nat)
    (basename : String) (fname : Option String) (comment : String)
    (chunksize : Nat) (parent : Option String) (https : Bool)
    (port : Option Nat) (md5 : String) (server : Server)
    (u p : Option String)
    (h : (u = none ∧ p ≠ none) ∨ (u ≠ none ∧ p = none)) :
    (Tester.init host content basename u p fname comment chunksize parent
        https port md5).login = true ∧
    ((Tester.put_chunk server 0 (Tester.init host content basename u p fname
        comment chunksize parent https port md5)).2.2).head? =
      some (Request.auth
        ((Tester.init host content basename u p fname comment chunksize parent
          https port md5).base_url ++ AUTHURL) u p) := by
  have hlogin : (Tester.init host content basename u p fname comment chunksize
      parent https port md5).login = true := by
    rcases h with ⟨hu, hp⟩ | ⟨hu, hp⟩
    · subst hu
      rcases p with _ | pv
      · exact absurd rfl hp
      · rfl
    · subst hp
      rcases u with _ | uv
      · exact absurd rfl hu
      · rfl
  exact ⟨hlogin, put_chunk_first_auth server 0 _ hlogin rfl rfl⟩

/-- Witness for `one_credential_still_authenticates`: only a username is
supplied; the password field of the token exchange is `None`. -/
theorem one_credential_still_authenticates_witness :
    (((some "alice" : Option String) = none ∧ (none : Option String) ≠ none) ∨
     ((some "alice" : Option String) ≠ none ∧ (none : Option String) = none)) ∧
    ((Tester.init "h" content10 "f.zip" (some "alice") none none "" 4 none
        true none "m").login = true ∧
     ((Tester.put_chunk server7 0 (Tester.init "h" content10 "f.zip"
         (some "alice") none none "" 4 none true none "m")).2.2).head? =
       some (Request.auth
         ((Tester.init "h" content10 "f.zip" (some "alice") none none "" 4 none
           true none "m").base_url ++ AUTHURL) (some "alice") none)) :=
  ⟨Or.inr ⟨by simp, rfl⟩,
    one_credential_still_authenticates "h" content10 "f.zip" none "" 4 none
      true none "m" server7 (some "alice") none (Or.inr ⟨by simp, rfl⟩)⟩

end Uptest
